import Mathlib

/-!
Verification development for the blog maintenance utilities
(frontmatter normalization engine, hash ledger, document splitter).

The Python sources `Automatic-Updates/update_frontmatter.py` and
`Automatic-Updates/generate_hashes.py` are shallowly embedded below.
Text is modelled as `List Char`; Python dictionaries (insertion ordered,
update-in-place, delete removes the entry) are modelled as association
lists with the corresponding operations.  File-system reads and writes
are abstracted: a document is its content string, a write is the returned
new content.  The SHA-256 digest, the YAML parser and the YAML serializer
are abstracted as function parameters of the orchestration functions,
since none of the verified claims depends on their internals.
-/

abbrev Str := List Char

def strL (s : String) : Str := s.data

/-- The 3-character frontmatter delimiter `---`. -/
def marker : Str := strL "---"

/-- Python whitespace characters stripped by `str.strip()` (ASCII range). -/
def isPyWhite (c : Char) : Bool :=
  c = ' ' || c = '\t' || c = '\n' || c = '\r' || c = '\x0b' || c = '\x0c'

/-- Python `str.strip()`: drop leading and trailing whitespace. -/
def pyStrip (s : Str) : Str :=
  ((s.dropWhile isPyWhite).reverse.dropWhile isPyWhite).reverse

/-- Python `str.rstrip()`: drop trailing whitespace. -/
def pyRstrip (s : Str) : Str :=
  (s.reverse.dropWhile isPyWhite).reverse

/-- Index of the first occurrence of `sub` in `s` (Python `str.find` for a
    non-empty needle), `none` when `sub` does not occur. -/
def findSub (sub : Str) : Str → Option Nat
  | [] => none
  | c :: cs =>
    if sub.isPrefixOf (c :: cs) then some 0
    else (findSub sub cs).map (· + 1)

/-- Python `str.split(sep)` for a single-character separator. -/
def splitOnChar (sep : Char) : Str → List Str
  | [] => [[]]
  | c :: cs =>
    let r := splitOnChar sep cs
    if c = sep then [] :: r
    else
      match r with
      | [] => [[c]]
      | h :: t => (c :: h) :: t

/-- Python `content.split("---", 2)`: at most two splits at the leftmost
    non-overlapping occurrences of the marker. -/
def pySplit3 (s : Str) : List Str :=
  match findSub marker s with
  | none => [s]
  | some i =>
    let r1 := s.drop (i + 3)
    match findSub marker r1 with
    | none => [s.take i, r1]
    | some j => [s.take i, r1.take j, r1.drop (j + 3)]

/-- Embedding of `split_frontmatter` (update_frontmatter.py, lines 101-124): if the content
    does not start with `---`, or splitting on `---` yields fewer than three
    parts, return `none` (the Python `(None, None)`); otherwise return
    `(parts[1], parts[2])`. -/
def split_frontmatter (content : Str) : Option (Str × Str) :=
  if marker.isPrefixOf content then
    match pySplit3 content with
    | [_, fm, body] => some (fm, body)
    | _ => none
  else none

/-- The body component of a splitter result, when present. -/
def bodyOf : Option (Str × Str) → Option Str
  | none => none
  | some (_, b) => some b

/-- Python `str.replace(sub, rep)` (all occurrences, left to right,
    non-overlapping), via structural fuel recursion; `fuel = s.length + 1`
    is always sufficient for a non-empty `sub`. -/
def replaceAllFuel (sub rep : Str) : Nat → Str → Str
  | 0, s => s
  | _ + 1, [] => []
  | fuel + 1, c :: cs =>
    if sub.isPrefixOf (c :: cs) then
      rep ++ replaceAllFuel sub rep fuel (cs.drop (sub.length - 1))
    else c :: replaceAllFuel sub rep fuel cs

def replaceAll (sub rep s : Str) : Str :=
  replaceAllFuel sub rep (s.length + 1) s

/-- Python `str.title()`: the first letter of each maximal alphabetic run is
    uppercased, the following letters lowercased (ASCII letters). -/
def pyTitleAux : Bool → Str → Str
  | _, [] => []
  | prevAlpha, c :: cs =>
    if c.isAlpha then
      (if prevAlpha then c.toLower else c.toUpper) :: pyTitleAux true cs
    else c :: pyTitleAux false cs

def pyTitle (s : Str) : Str := pyTitleAux false s

/-- Embedding of `os.path.basename` for POSIX paths: the component after the last slash. -/
def basenameL (s : Str) : Str :=
  (s.reverse.takeWhile (· ≠ '/')).reverse

/-- Decimal digit character. -/
def digitChar (n : Nat) : Char := Char.ofNat (48 + n)

/-- Decimal digits of a natural number (fuel recursion; `n + 1` divisions
    by ten always suffice). -/
def natDigitsFuel : Nat → Nat → Str
  | 0, _ => []
  | f + 1, n =>
    if n < 10 then [digitChar n]
    else natDigitsFuel f (n / 10) ++ [digitChar (n % 10)]

def natDigits (n : Nat) : Str := natDigitsFuel (n + 1) n

/-- Zero-pad a decimal numeral to a given width. -/
def padTo (w n : Nat) : Str :=
  List.replicate (w - (natDigits n).length) '0' ++ natDigits n

/-- A naive local wall-clock datetime, as produced by `datetime.now()`. -/
structure Datetime where
  year : Nat
  month : Nat
  day : Nat
  hour : Nat
  minute : Nat
  second : Nat
  microsecond : Nat
deriving DecidableEq

/-- Python `datetime.isoformat()` on a naive datetime:
    `YYYY-MM-DDTHH:MM:SS` followed by `.ffffff` only when the microsecond
    field is non-zero.  No timezone designator is ever appended. -/
def isoformat (dt : Datetime) : Str :=
  padTo 4 dt.year ++ strL "-" ++ padTo 2 dt.month ++ strL "-" ++ padTo 2 dt.day ++
    strL "T" ++ padTo 2 dt.hour ++ strL ":" ++ padTo 2 dt.minute ++ strL ":" ++
    (padTo 2 dt.second ++
      (if dt.microsecond = 0 then [] else '.' :: padTo 6 dt.microsecond))

/-- YAML values as far as the normalizer inspects them: string scalars
    (with their double-quoting flag, `DoubleQuotedScalarString`), lists,
    null, booleans and integers. -/
inductive Yaml where
  | str (s : Str) (dq : Bool)
  | list (xs : List Yaml)
  | nil
  | bool (b : Bool)
  | int (n : Int)

mutual

/-- Python `==` on the YAML values above. -/
def yamlBeq : Yaml → Yaml → Bool
  | .str s a, .str t b => s == t && a == b
  | .list xs, .list ys => yamlListBeq xs ys
  | .nil, .nil => true
  | .bool a, .bool b => a == b
  | .int a, .int b => a == b
  | _, _ => false

/-- Python `==` on lists of YAML values (elementwise). -/
def yamlListBeq : List Yaml → List Yaml → Bool
  | [], [] => true
  | x :: xs, y :: ys => yamlBeq x y && yamlListBeq xs ys
  | _, _ => false

end

/-- A parsed frontmatter mapping, in insertion order. -/
abbrev Dict := List (String × Yaml)

/-- Python dictionary lookup `d.get(k)`. -/
def aget {κ ν : Type} [DecidableEq κ] : List (κ × ν) → κ → Option ν
  | [], _ => none
  | e :: t, k => if e.1 = k then some e.2 else aget t k

/-- Python dictionary assignment `d[k] = v`: update in place when the key
    exists, otherwise append at the end. -/
def aset {κ ν : Type} [DecidableEq κ] : List (κ × ν) → κ → ν → List (κ × ν)
  | [], k, v => [(k, v)]
  | e :: t, k, v => if e.1 = k then (k, v) :: t else e :: aset t k v

/-- Python dictionary deletion `del d[k]`. -/
def adel {κ ν : Type} [DecidableEq κ] : List (κ × ν) → κ → List (κ × ν)
  | [], _ => []
  | e :: t, k => if e.1 = k then adel t k else e :: adel t k

/-- Python truthiness of the YAML values above: empty strings, empty lists,
    null, `False` and `0` are falsy. -/
def yamlFalsy : Yaml → Bool
  | .str s _ => s.isEmpty
  | .list xs => xs.isEmpty
  | .nil => true
  | .bool b => !b
  | .int n => n = 0

def isYamlList : Yaml → Bool
  | .list _ => true
  | _ => false

/-- The default title derived in `update_title_and_date` (lines 160-162):
    `os.path.basename(file_path).replace(".md", "").replace("_", " ").title()`. -/
def defaultTitle (filePath : String) : Str :=
  pyTitle (replaceAll (strL "_") (strL " ")
    (replaceAll (strL ".md") [] (basenameL (strL filePath))))

/-- The condition `"title" not in data or not data["title"]`. -/
def titleAbsent (data : Dict) : Bool :=
  match aget data "title" with
  | none => true
  | some v => yamlFalsy v

/-- The condition `"date" not in data or not data["date"]`. -/
def dateAbsent (data : Dict) : Bool :=
  match aget data "date" with
  | none => true
  | some v => yamlFalsy v

/-- Embedding of `update_title_and_date` (update_frontmatter.py, lines 145-172).  The
    current local wall-clock time `datetime.now()` is passed in as `now`;
    both default values are stored as double-quoted string scalars.
    Returns the mutated mapping and the `modified` flag. -/
def update_title_and_date (data : Dict) (filePath : String) (now : Datetime) :
    Dict × Bool :=
  let st := if titleAbsent data then
    (aset data "title" (Yaml.str (defaultTitle filePath) true), true)
  else (data, false)
  if dateAbsent st.1 then
    (aset st.1 "date" (Yaml.str (isoformat now) true), true)
  else st

/-- The categories filter `isinstance(cat, str) and cat.strip()`
    (line 195): keep string scalars whose stripped text is non-empty. -/
def catKeep : Yaml → Bool
  | .str s _ => !(pyStrip s).isEmpty
  | _ => false

/-- Embedding of `update_categories` (update_frontmatter.py, lines 174-214).  An existing
    list is filtered; an emptied or non-list field is deleted; afterwards an
    absent field is set to the double-quoted scalar `"Uncategorized"`. -/
def update_categories (data : Dict) : Dict × Bool :=
  let st :=
    match aget data "categories" with
    | none => (data, false)
    | some originalCategories =>
      match originalCategories with
      | .list cats =>
        let newCats := cats.filter catKeep
        if newCats.isEmpty then (adel data "categories", true)
        else if !(yamlListBeq newCats cats) then
          (aset data "categories" (Yaml.list newCats), true)
        else (data, false)
      | _ => (adel data "categories", true)
  if (aget st.1 "categories").isNone then
    (aset st.1 "categories" (Yaml.str (strL "Uncategorized") true), true)
  else st

/-- The field normalizer: the composition run by `update_frontmatter`
    (lines 271-272), `modified = update_categories(..) or update_title_and_date(..)`
    with both rules always executed. -/
def normalizeData (data : Dict) (filePath : String) (now : Datetime) :
    Dict × Bool :=
  let r1 := update_title_and_date data filePath now
  let r2 := update_categories r1.1
  (r2.1, r1.2 || r2.2)

/-- Embedding of the `save_frontmatter` content assembly (line 238): the serialized mapping is
    right-stripped and wrapped between `---` markers; a separating newline is
    inserted unless the body already starts with one.  The serializer is the
    abstract `dump`. -/
def saveFrontmatterContent (dump : Dict → Str) (data : Dict) (body : Str) :
    Str :=
  strL "---\n" ++ pyRstrip (dump data) ++ strL "\n---" ++
    (if body.head? = some '\n' then body else '\n' :: body)

/-- Result of `update_frontmatter` on one document: whether the file was
    saved, the content of the file afterwards, and which pipeline stages ran. -/
structure UFResult where
  saved : Bool
  newContent : Str
  didSplit : Bool
  didParse : Bool
  didNormalize : Bool
  didWrite : Bool
deriving DecidableEq

/-- Embedding of `update_frontmatter` (update_frontmatter.py, lines 247-277).  The YAML
    parser (`none` = ParseError) and serializer are abstract parameters; the
    document content stands for the file. -/
def update_frontmatter (parse : Str → Option Dict) (dump : Dict → Str)
    (filePath : String) (content : Str) (now : Datetime) : UFResult :=
  match split_frontmatter content with
  | none => ⟨false, content, true, false, false, false⟩
  | some (fm, body) =>
    match parse fm with
    | none => ⟨false, content, true, true, false, false⟩
    | some data =>
      let r := normalizeData data filePath now
      if r.2 then
        ⟨true, saveFrontmatterContent dump r.1 body, true, true, true, true⟩
      else ⟨false, content, true, true, true, false⟩

/-- Result of `process_markdown_file`: the returned triple
    `(new_hash, modified_file, was_modified)` plus the file content afterwards
    and the pipeline stages that ran. -/
structure ProcResult where
  newHash : Option String
  modifiedFile : Option String
  wasModified : Bool
  newContent : Str
  didSplit : Bool
  didParse : Bool
  didNormalize : Bool
  didWrite : Bool
deriving DecidableEq

/-- Embedding of `process_markdown_file` (update_frontmatter.py, lines 279-307).  The
    SHA-256 digest is the abstract `hash`; `prev` is the ledger entry
    `hashes.get(file_path)`.  I/O failures of `calculate_hash` are not
    modelled (the content is given). -/
def process_markdown_file (hash : Str → String) (parse : Str → Option Dict)
    (dump : Dict → Str) (filePath : String) (content : Str)
    (prev : Option String) (now : Datetime) : ProcResult :=
  let current := hash content
  if prev = some current then
    ⟨some current, none, false, content, false, false, false, false⟩
  else
    let r := update_frontmatter parse dump filePath content now
    if r.saved then
      ⟨some (hash r.newContent), some filePath, true, r.newContent,
        r.didSplit, r.didParse, r.didNormalize, r.didWrite⟩
    else
      ⟨some current, none, false, content,
        r.didSplit, r.didParse, r.didNormalize, r.didWrite⟩

/-- The loop body of `main` (lines 346-351) over the scanned files, carrying
    the `updated_hashes` dictionary (started empty) and the `modified_files`
    report.  `ledger` is the mapping loaded at start; Python truthiness of
    `if new_hash:` and `if was_modified and modified_file:` is preserved. -/
def mainRunAux (hash : Str → String) (parse : Str → Option Dict)
    (dump : Dict → Str) (now : Datetime) (ledger : List (String × String)) :
    List (String × Str) → List (String × String) → List String →
    List (String × String) × List String
  | [], uh, mf => (uh, mf)
  | (p, c) :: rest, uh, mf =>
    let r := process_markdown_file hash parse dump p c (aget ledger p) now
    let uh' := match r.newHash with
      | some h => if h = "" then uh else aset uh p h
      | none => uh
    let mf' := match r.modifiedFile with
      | some q => if r.wasModified && !(q = "") then mf ++ [q] else mf
      | none => mf
    mainRunAux hash parse dump now ledger rest uh' mf'

/-- Embedding of `main` (update_frontmatter.py, lines 330-355): process every scanned
    file, then save `updated_hashes` (which started as the empty dictionary)
    as the new ledger, and report the modified files. -/
def mainRun (hash : Str → String) (parse : Str → Option Dict)
    (dump : Dict → Str) (now : Datetime) (ledger : List (String × String))
    (files : List (String × Str)) : List (String × String) × List String :=
  mainRunAux hash parse dump now ledger files [] []

/-- One line of the ledger store as read by `load_hashes`: strip, split on
    tabs, and accept exactly two fields. -/
def parseLedgerLine (l : Str) : Option (Str × Str) :=
  match splitOnChar '\t' (pyStrip l) with
  | [p, h] => some (p, h)
  | _ => none

/-- Embedding of `load_hashes` (update_frontmatter.py, lines 36-65).  The store is
    `none` when the file does not exist; otherwise its list of lines.
    Returns the ledger (keys through the abstract `abspath`) together with
    the list of (stripped) malformed lines that were warned about and
    skipped. -/
def load_hashes (abspath : Str → Str) :
    Option (List Str) → List (Str × Str) × List Str
  | none => ([], [])
  | some lines =>
    lines.foldl
      (fun acc line =>
        match parseLedgerLine line with
        | some (p, h) => (aset acc.1 (abspath p) h, acc.2)
        | none => (acc.1, acc.2 ++ [pyStrip line]))
      ([], [])

/-- Embedding of `load_existing_hashes` (generate_hashes.py, lines 23-42).  The line
    unpacking `file_path, file_hash = line.strip().split("\t")` raises
    ValueError unless the split yields exactly two fields; the error is
    modelled as `Except.error ()`. -/
def load_existing_hashes :
    Option (List Str) → Except Unit (List (Str × Str))
  | none => .ok []
  | some lines =>
    lines.foldlM
      (fun acc line =>
        match parseLedgerLine line with
        | some (p, h) => .ok (aset acc p h)
        | none => .error ())
      []

/-- Embedding of `update_hashes` (generate_hashes.py, lines 55-85): hash every scanned
    file, merge `{**existing_hashes, **current_hashes}`, then delete every
    key that is not in the current scan, mirroring the pruning loop over
    `list(updated_hashes.keys())`. -/
def update_hashes (hash : Str → String) (existing : List (String × String))
    (files : List (String × Str)) : List (String × String) :=
  let current := files.foldl (fun acc e => aset acc e.1 (hash e.2)) []
  let updated := current.foldl (fun acc e => aset acc e.1 e.2) existing
  (updated.map Prod.fst).foldl
    (fun acc k => if (aget current k).isSome then acc else adel acc k)
    updated

/-- Strip a final `.md` extension from a file name: the reading of the
    specification words "derive a default from the file base name (strip
    extension, ...)"; to be compared with the source
    `.replace(".md", "")`, which removes every occurrence. -/
def stripExtension (s : Str) : Str :=
  if (strL ".md").isSuffixOf s then s.take (s.length - 3) else s

/-- The default title as described by the specification words: strip the
    extension, replace underscores with spaces, title-case. -/
def specTitle (filePath : String) : Str :=
  pyTitle (replaceAll (strL "_") (strL " ")
    (stripExtension (basenameL (strL filePath))))

/-- The ledger built from a list of already well-formed `(path, hash)`
    entries, keyed through `abspath`: reference form for the
    `load_hashes` characterization. -/
def buildLedger (abspath : Str → Str) (entries : List (Str × Str)) :
    List (Str × Str) :=
  entries.foldl (fun acc e => aset acc (abspath e.1) e.2) []

/-- A fixed sample wall-clock instant used by concrete witnesses. -/
def dt0 : Datetime := ⟨2024, 1, 2, 3, 4, 5, 0⟩

example : pyTitle (strL "my post") = strL "My Post" := by decide
example : replaceAll (strL ".md") [] (strL "a.md.md") = strL "a" := by decide
example : split_frontmatter (strL "hello") = none := by decide
example : split_frontmatter (strL "---\nx\n---\nb") = some (strL "\nx\n", strL "\nb") := by decide
example : aget [("a", (1 : Nat))] "a" = some 1 := by decide
example : update_categories [] =
    ([("categories", Yaml.str (strL "Uncategorized") true)], true) := by rfl
example : update_categories [("categories", Yaml.list [])] =
    ([("categories", Yaml.str (strL "Uncategorized") true)], true) := by rfl
example : update_categories
      [("categories", Yaml.list [Yaml.str (strL "") true, Yaml.str (strL "Tech") true])] =
    ([("categories", Yaml.list [Yaml.str (strL "Tech") true])], true) := by rfl
example : defaultTitle "my_post.md" = strL "My Post" := by rfl
example : isoformat ⟨2024, 1, 2, 3, 4, 5, 0⟩ = strL "2024-01-02T03:04:05" := by rfl
example : isoformat ⟨2024, 1, 2, 3, 4, 5, 6⟩ = strL "2024-01-02T03:04:05.000006" := by rfl

/-! ### Association list (Python dictionary) lemmas -/

theorem aget_aset_self {κ ν : Type} [DecidableEq κ]
    (d : List (κ × ν)) (k : κ) (v : ν) : aget (aset d k v) k = some v := by
  induction d with
  | nil => simp [aget, aset]
  | cons e t ih =>
    by_cases h : e.1 = k
    · simp [aget, aset, h]
    · simp [aget, aset, h, ih]

theorem aget_aset_ne {κ ν : Type} [DecidableEq κ]
    (d : List (κ × ν)) (k k' : κ) (v : ν) (h : k' ≠ k) :
    aget (aset d k v) k' = aget d k' := by
  have hkk : ¬ k = k' := fun hh => h hh.symm
  induction d with
  | nil => simp [aget, aset, hkk]
  | cons e t ih =>
    by_cases he : e.1 = k
    · have he' : ¬ e.1 = k' := by rw [he]; exact hkk
      simp [aget, aset, he, he', hkk]
    · by_cases he' : e.1 = k'
      · simp [aget, aset, he, he', h]
      · simp [aget, aset, he, he', ih]

theorem aget_adel_ne {κ ν : Type} [DecidableEq κ]
    (d : List (κ × ν)) (k k' : κ) (h : k' ≠ k) :
    aget (adel d k) k' = aget d k' := by
  have hkk : ¬ k = k' := fun hh => h hh.symm
  induction d with
  | nil => simp [adel]
  | cons e t ih =>
    by_cases he : e.1 = k
    · have he' : ¬ e.1 = k' := by rw [he]; exact hkk
      simp [aget, adel, he, he', ih, hkk]
    · by_cases he' : e.1 = k'
      · simp [aget, adel, he, he', h]
      · simp [aget, adel, he, he', ih]

theorem aget_isSome_mem_keys {κ ν : Type} [DecidableEq κ]
    (d : List (κ × ν)) (k : κ) (h : (aget d k).isSome = true) :
    k ∈ d.map Prod.fst := by
  induction d with
  | nil => simp [aget] at h
  | cons e t ih =>
    by_cases he : e.1 = k
    · simp [he]
    · rw [aget, if_neg he] at h
      simp [ih h]

/-! ### C1, C2: the categories default and idempotence -/

/-- C1: the claim says that after the categories rule every document has a
    non-empty `categories` list, with the default being the single-element
    list containing "Uncategorized".  Evaluating `update_categories` at the
    failing inputs (no `categories` field, and `categories: []`) shows the
    code instead installs the double-quoted *scalar* string "Uncategorized",
    which is not a list — the very shape the rule itself deletes as invalid. -/
theorem categories_default_scalar_not_list :
    update_categories [] =
      ([("categories", Yaml.str (strL "Uncategorized") true)], true) ∧
    update_categories [("categories", Yaml.list [])] =
      ([("categories", Yaml.str (strL "Uncategorized") true)], true) ∧
    isYamlList (Yaml.str (strL "Uncategorized") true) = false :=
  ⟨rfl, rfl, rfl⟩

/-- C2: the claim says the normalizer is idempotent (change flag of the second run
    is false).  Evaluating the normalizer twice on the document with an empty
    parsed mapping shows the second run reports `modified = true` — the
    scalar "Uncategorized" installed by the first run is deleted as a
    non-list and re-added — even though the mapping itself is unchanged. -/
theorem normalizer_second_run_reports_change :
    (normalizeData (normalizeData [] "my_post.md" dt0).1 "my_post.md" dt0).2
      = true ∧
    (normalizeData (normalizeData [] "my_post.md" dt0).1 "my_post.md" dt0).1
      = (normalizeData [] "my_post.md" dt0).1 :=
  ⟨rfl, rfl⟩

/-! ### C4: splitter behaviour on documents without usable metadata -/

/-- C4 counterexample: on content with no leading marker the splitter returns
    `none` — the Python `(None, None)` — so the body component is *not* the
    full original content as the claim states; there is no body at all. -/
theorem splitter_counterexample_body_not_returned :
    split_frontmatter (strL "hello") = none ∧
    bodyOf (split_frontmatter (strL "hello")) ≠ some (strL "hello") := by
  decide

/-- C4 (amended): the splitter never raises; if the content does not start
    with the 3-character marker, or splitting on the marker yields fewer than
    three parts, it returns the no-metadata result `none` (both components
    absent), and the caller skips the document. -/
theorem splitter_no_metadata_yields_none (content : Str)
    (h : marker.isPrefixOf content = false ∨ (pySplit3 content).length < 3) :
    split_frontmatter content = none := by
  rcases h with h | h
  · simp [split_frontmatter, h]
  · by_cases hp : marker.isPrefixOf content
    · rw [split_frontmatter, if_pos hp]
      rcases hx : pySplit3 content with _ | ⟨a, _ | ⟨b, _ | ⟨c, t⟩⟩⟩
      · rfl
      · rfl
      · rfl
      · exfalso
        rw [hx] at h
        simp only [List.length_cons] at h
        omega
    · simp [split_frontmatter, hp]

/-- Witness for C4: a concrete unterminated metadata block, `---abc`. -/
theorem splitter_no_metadata_witness :
    (pySplit3 (strL "---abc")).length < 3 ∧
    split_frontmatter (strL "---abc") = none :=
  ⟨by decide, splitter_no_metadata_yields_none _ (Or.inr (by decide))⟩

/-! ### C6: the title rule -/

/-- C6 counterexample: for the file name `a.md.md` the code derives the
    title "A" (every occurrence of `.md` is removed by
    `.replace(".md", "")`), while the claimed derivation — strip the
    extension, then transform — yields "A.Md". -/
theorem title_rule_counterexample :
    aget (update_title_and_date [] "a.md.md" dt0).1 "title" =
      some (Yaml.str (strL "A") true) ∧
    specTitle "a.md.md" = strL "A.Md" ∧
    strL "A" ≠ strL "A.Md" :=
  ⟨rfl, rfl, by decide⟩

/-- C6 (amended): if `title` is absent or falsy, the rule stores, as a
    double-quoted scalar, the base name with every occurrence of `.md`
    removed, underscores replaced by spaces, and Python title-casing
    applied, and reports a change; on `my_post.md` this is "My Post". -/
theorem title_rule_sets_default (data : Dict) (fp : String) (now : Datetime)
    (h : titleAbsent data = true) :
    aget (update_title_and_date data fp now).1 "title" =
      some (Yaml.str (defaultTitle fp) true) ∧
    (update_title_and_date data fp now).2 = true ∧
    defaultTitle "my_post.md" = strL "My Post" := by
  have hne : ("title" : String) ≠ "date" := by decide
  refine ⟨?_, ?_, rfl⟩
  · by_cases hd : dateAbsent (aset data "title" (Yaml.str (defaultTitle fp) true))
    · simp [update_title_and_date, h, hd, aget_aset_ne _ _ _ _ hne, aget_aset_self]
    · simp [update_title_and_date, h, hd, aget_aset_self]
  · by_cases hd : dateAbsent (aset data "title" (Yaml.str (defaultTitle fp) true))
    · simp [update_title_and_date, h, hd]
    · simp [update_title_and_date, h, hd]

/-- Witness for C6: the empty mapping and the file `my_post.md`. -/
theorem title_rule_witness :
    titleAbsent [] = true ∧
    (aget (update_title_and_date [] "my_post.md" dt0).1 "title" =
        some (Yaml.str (defaultTitle "my_post.md") true) ∧
      (update_title_and_date [] "my_post.md" dt0).2 = true ∧
      defaultTitle "my_post.md" = strL "My Post") :=
  ⟨rfl, title_rule_sets_default [] "my_post.md" dt0 rfl⟩

/-! ### C7: the date rule -/

theorem getLast?_append_some {α : Type} {l₂ : List α} {a : α} (l₁ : List α)
    (h : l₂.getLast? = some a) : (l₁ ++ l₂).getLast? = some a := by
  have hne : l₂ ≠ [] := by
    intro hnil
    rw [hnil] at h
    simp at h
  rw [List.getLast?_append_of_ne_nil _ hne]
  exact h

theorem natDigits_getLast (n : Nat) :
    ∃ k, k < 10 ∧ (natDigits n).getLast? = some (digitChar k) := by
  by_cases h : n < 10
  · refine ⟨n, h, ?_⟩
    simp only [natDigits, natDigitsFuel, if_pos h]
    rfl
  · refine ⟨n % 10, Nat.mod_lt _ (by omega), ?_⟩
    simp only [natDigits, natDigitsFuel, if_neg h]
    rw [List.getLast?_append_cons]
    rfl

theorem padTo_getLast (w n : Nat) :
    ∃ k, k < 10 ∧ (padTo w n).getLast? = some (digitChar k) := by
  obtain ⟨k, hk, hl⟩ := natDigits_getLast n
  exact ⟨k, hk, by rw [padTo]; exact getLast?_append_some _ hl⟩

theorem isoformat_getLast (dt : Datetime) :
    ∃ k, k < 10 ∧ (isoformat dt).getLast? = some (digitChar k) := by
  by_cases hm : dt.microsecond = 0
  · obtain ⟨k, hk, hl⟩ := padTo_getLast 2 dt.second
    refine ⟨k, hk, ?_⟩
    rw [isoformat]
    apply getLast?_append_some
    rw [if_pos hm, List.append_nil]
    exact hl
  · obtain ⟨k, hk, hl⟩ := padTo_getLast 6 dt.microsecond
    refine ⟨k, hk, ?_⟩
    rw [isoformat]
    apply getLast?_append_some
    apply getLast?_append_some
    rw [if_neg hm]
    show (['.'] ++ padTo 6 dt.microsecond).getLast? = _
    exact getLast?_append_some _ hl

theorem digitChar_ne_Z (k : Nat) (hk : k < 10) : digitChar k ≠ 'Z' := by
  interval_cases k <;> decide

/-- C7 counterexample: a concrete document with no `date` field gets the
    local `isoformat` value — here `2024-01-02T03:04:05.000006` — whose
    last character is a digit, not the claimed RFC-3339 `Z` suffix. -/
theorem date_rule_counterexample :
    aget (update_title_and_date [] "f.md" ⟨2024, 1, 2, 3, 4, 5, 6⟩).1 "date" =
      some (Yaml.str (strL "2024-01-02T03:04:05.000006") true) ∧
    (strL "2024-01-02T03:04:05.000006").getLast? ≠ some 'Z' :=
  ⟨rfl, by decide⟩

/-- C7 (amended): if `date` is absent or falsy, the rule stores the current
    *local* `datetime.now().isoformat()` timestamp as a double-quoted scalar
    and reports a change; that timestamp always ends in a digit and never
    carries a `Z` (UTC) suffix. -/
theorem date_rule_sets_local_time (data : Dict) (fp : String) (now : Datetime)
    (h : dateAbsent data = true) :
    aget (update_title_and_date data fp now).1 "date" =
      some (Yaml.str (isoformat now) true) ∧
    (update_title_and_date data fp now).2 = true ∧
    (isoformat now).getLast? ≠ some 'Z' := by
  have hZ : (isoformat now).getLast? ≠ some 'Z' := by
    obtain ⟨k, hk, hl⟩ := isoformat_getLast now
    rw [hl]
    intro hc
    injection hc with hc
    exact digitChar_ne_Z k hk hc
  have hne : ("date" : String) ≠ "title" := by decide
  by_cases ht : titleAbsent data
  · have hd1 : dateAbsent (aset data "title" (Yaml.str (defaultTitle fp) true)) = true := by
      simp only [dateAbsent, aget_aset_ne _ _ _ _ hne]
      simp only [dateAbsent] at h
      exact h
    simp [update_title_and_date, ht, hd1, aget_aset_self, hZ]
  · simp [update_title_and_date, ht, h, aget_aset_self, hZ]

/-- Witness for C7: the empty mapping at the sample instant. -/
theorem date_rule_witness :
    dateAbsent [] = true ∧
    (aget (update_title_and_date [] "f.md" dt0).1 "date" =
        some (Yaml.str (isoformat dt0) true) ∧
      (update_title_and_date [] "f.md" dt0).2 = true ∧
      (isoformat dt0).getLast? ≠ some 'Z') :=
  ⟨rfl, date_rule_sets_local_time [] "f.md" dt0 rfl⟩

/-! ### C10: the splitter cuts at raw marker occurrences -/

theorem findSub_first (sub : Str) (hsub : sub ≠ []) :
    ∀ (s : Str) (j : Nat), sub.isPrefixOf (s.drop j) = true →
      (∀ k, k < j → ¬ sub.isPrefixOf (s.drop k) = true) →
      findSub sub s = some j := by
  intro s
  induction s with
  | nil =>
    intro j hocc _
    exfalso
    rcases sub with _ | ⟨a, t⟩
    · exact hsub rfl
    · rw [List.drop_nil] at hocc
      simp [List.isPrefixOf] at hocc
  | cons c cs ih =>
    intro j hocc hmin
    cases j with
    | zero =>
      rw [List.drop_zero] at hocc
      rw [findSub, if_pos hocc]
    | succ j' =>
      have h0 : ¬ sub.isPrefixOf ((c :: cs).drop 0) = true := hmin 0 (Nat.succ_pos _)
      rw [List.drop_zero] at h0
      rw [findSub, if_neg h0]
      have hocc' : sub.isPrefixOf (cs.drop j') = true := by
        rw [List.drop_succ_cons] at hocc
        exact hocc
      have hmin' : ∀ k, k < j' → ¬ sub.isPrefixOf (cs.drop k) = true := by
        intro k hk
        have hx := hmin (k + 1) (by omega)
        rw [List.drop_succ_cons] at hx
        exact hx
      rw [ih j' hocc' hmin']
      rfl

/-- C10: for content beginning with the marker, the splitter returns the
    text strictly between the marker prefix and the *first* following raw
    occurrence of `---` (at offset `j` in the remainder) as the frontmatter,
    and everything after that occurrence as the body — the occurrence need
    not be a delimiter line. -/
theorem splitter_splits_at_first_marker (rest : Str) (j : Nat)
    (hocc : marker.isPrefixOf (rest.drop j) = true)
    (hmin : ∀ k, k < j → ¬ marker.isPrefixOf (rest.drop k) = true) :
    split_frontmatter (marker ++ rest) = some (rest.take j, rest.drop (j + 3)) := by
  have hpre : marker.isPrefixOf (marker ++ rest) = true := by
    rw [List.isPrefixOf_iff_prefix]
    exact List.prefix_append _ _
  have hfind0 : findSub marker (marker ++ rest) = some 0 := by
    have hpre' : marker.isPrefixOf ('-' :: '-' :: '-' :: rest) = true := hpre
    show findSub marker ('-' :: '-' :: '-' :: rest) = some 0
    rw [findSub, if_pos hpre']
  have hfj : findSub marker rest = some j :=
    findSub_first marker (by decide) rest j hocc hmin
  have hr1 : (marker ++ rest).drop (0 + 3) = rest := rfl
  have hps : pySplit3 (marker ++ rest) = [[], rest.take j, rest.drop (j + 3)] := by
    simp only [pySplit3, hfind0, hr1, hfj]
    rfl
  rw [split_frontmatter, if_pos hpre, hps]

/-- Witness for C10: `---` occurring mid-line inside a metadata value
    terminates the block there. -/
theorem splitter_first_marker_witness :
    marker.isPrefixOf ((strL "\nkey: a---b\nbody").drop 7) = true ∧
    (∀ k, k < 7 → ¬ marker.isPrefixOf ((strL "\nkey: a---b\nbody").drop k) = true) ∧
    split_frontmatter (marker ++ strL "\nkey: a---b\nbody") =
      some ((strL "\nkey: a---b\nbody").take 7, (strL "\nkey: a---b\nbody").drop 10) :=
  ⟨by decide, by decide,
    splitter_splits_at_first_marker (strL "\nkey: a---b\nbody") 7 (by decide) (by decide)⟩

/-! ### C3: a parse failure still advances the ledger fingerprint -/

/-- C3 counterexample: a document whose metadata fails to parse, with an old
    ledger fingerprint "OLDHASH"; after the run the saved ledger holds the
    *current* content fingerprint, not the old one, so the file will not be
    retried. -/
theorem parse_error_counterexample :
    aget (mainRun (fun c => String.mk ('#' :: c)) (fun _ => none) (fun _ => [])
        dt0 [("f.md", "OLDHASH")] [("f.md", strL "---\nx\n---\nbody")]).1 "f.md" =
      some (String.mk ('#' :: strL "---\nx\n---\nbody")) ∧
    String.mk ('#' :: strL "---\nx\n---\nbody") ≠ "OLDHASH" := by
  constructor
  · rfl
  · decide

/-- C3 (amended): on a ParseError the file is skipped — nothing is written,
    it is not reported — but `process_markdown_file` returns the *current*
    content hash, which `main` records, so the ledger entry is advanced and
    the document is NOT retried on the next run. -/
theorem parse_error_advances_fingerprint (hash : Str → String)
    (parse : Str → Option Dict) (dump : Dict → Str) (p : String)
    (content fm body : Str) (L : List (String × String)) (now : Datetime)
    (hsp : split_frontmatter content = some (fm, body))
    (hpe : parse fm = none)
    (hprev : aget L p ≠ some (hash content))
    (hne : hash content ≠ "") :
    process_markdown_file hash parse dump p content (aget L p) now =
      ⟨some (hash content), none, false, content, true, true, false, false⟩ ∧
    aget (mainRun hash parse dump now L [(p, content)]).1 p =
      some (hash content) := by
  have hup : update_frontmatter parse dump p content now =
      ⟨false, content, true, true, false, false⟩ := by
    simp only [update_frontmatter, hsp, hpe]
  have hpmf : process_markdown_file hash parse dump p content (aget L p) now =
      ⟨some (hash content), none, false, content, true, true, false, false⟩ := by
    simp only [process_markdown_file, if_neg hprev, hup]
    simp
  refine ⟨hpmf, ?_⟩
  rw [mainRun, mainRunAux]
  simp only [hpmf, if_neg hne, mainRunAux]
  exact aget_aset_self [] p (hash content)

/-- Witness for C3: concrete document, parser that always fails. -/
theorem parse_error_advances_witness :
    split_frontmatter (strL "---\na\n---\nb") = some (strL "\na\n", strL "\nb") ∧
    aget ([("f.md", "OLD")] : List (String × String)) "f.md" ≠
      some (String.mk ('#' :: strL "---\na\n---\nb")) ∧
    (process_markdown_file (fun c => String.mk ('#' :: c)) (fun _ => none)
        (fun _ => []) "f.md" (strL "---\na\n---\nb")
        (aget [("f.md", "OLD")] "f.md") dt0 =
      ⟨some (String.mk ('#' :: strL "---\na\n---\nb")), none, false,
        strL "---\na\n---\nb", true, true, false, false⟩ ∧
      aget (mainRun (fun c => String.mk ('#' :: c)) (fun _ => none) (fun _ => [])
          dt0 [("f.md", "OLD")] [("f.md", strL "---\na\n---\nb")]).1 "f.md" =
        some (String.mk ('#' :: strL "---\na\n---\nb"))) :=
  ⟨by decide, by decide,
    parse_error_advances_fingerprint (fun c => String.mk ('#' :: c))
      (fun _ => none) (fun _ => []) "f.md" (strL "---\na\n---\nb")
      (strL "\na\n") (strL "\nb") [("f.md", "OLD")] dt0
      (by decide) rfl (by decide) (by decide)⟩

/-! ### C5: stale ledger entries are pruned, not preserved -/

theorem aget_adel_self {κ ν : Type} [DecidableEq κ]
    (d : List (κ × ν)) (k : κ) : aget (adel d k) k = none := by
  induction d with
  | nil => simp [adel, aget]
  | cons e t ih =>
    by_cases he : e.1 = k
    · simp [adel, he, ih]
    · simp [adel, aget, he, ih]

/-- C5 counterexample: a run over a directory that no longer contains the
    ledger path "old" saves a ledger without it — the loaded entry is not
    preserved. -/
theorem mainrun_drops_stale_entry :
    aget ([("old", "h")] : List (String × String)) "old" = some "h" ∧
    aget (mainRun (fun c => String.mk ('#' :: c)) (fun _ => some [])
        (fun _ => []) dt0 [("old", "h")] [("new", strL "x")]).1 "old" = none :=
  ⟨rfl, rfl⟩

theorem mainRunAux_key_sub (hash : Str → String) (parse : Str → Option Dict)
    (dump : Dict → Str) (now : Datetime) (L : List (String × String)) :
    ∀ (files : List (String × Str)) (uh : List (String × String))
      (mf : List String) (p : String),
      (aget (mainRunAux hash parse dump now L files uh mf).1 p).isSome = true →
      (aget uh p).isSome = true ∨ p ∈ files.map Prod.fst := by
  intro files
  induction files with
  | nil =>
    intro uh mf p h
    rw [mainRunAux] at h
    exact Or.inl h
  | cons e rest ih =>
    intro uh mf p h
    obtain ⟨q, c⟩ := e
    simp only [mainRunAux] at h
    rcases ih _ _ p h with h' | h'
    · by_cases hq : q = p
      · right
        simp [hq]
      · left
        rcases hnh : (process_markdown_file hash parse dump q c (aget L q) now).newHash
          with _ | hv
        · rw [hnh] at h'
          exact h'
        · rw [hnh] at h'
          have h'' : (aget (if hv = "" then uh else aset uh q hv) p).isSome = true := h'
          by_cases hv0 : hv = ""
          · rw [if_pos hv0] at h''
            exact h''
          · rw [if_neg hv0, aget_aset_ne _ _ _ _ (fun hh => hq hh.symm)] at h''
            exact h''
    · right
      simp [h']

theorem aget_current_fold_not_mem (hash : Str → String) :
    ∀ (files : List (String × Str)) (acc : List (String × String)) (p : String),
      p ∉ files.map Prod.fst →
      aget (files.foldl (fun a e => aset a e.1 (hash e.2)) acc) p = aget acc p := by
  intro files
  induction files with
  | nil => intro acc p _; rfl
  | cons e rest ih =>
    intro acc p hp
    simp only [List.map_cons, List.mem_cons] at hp
    push_neg at hp
    rw [List.foldl_cons, ih _ _ hp.2, aget_aset_ne _ _ _ _ hp.1]

theorem aget_merge_fold_not_mem :
    ∀ (cur acc : List (String × String)) (p : String),
      p ∉ cur.map Prod.fst →
      aget (cur.foldl (fun a e => aset a e.1 e.2) acc) p = aget acc p := by
  intro cur
  induction cur with
  | nil => intro acc p _; rfl
  | cons e rest ih =>
    intro acc p hp
    simp only [List.map_cons, List.mem_cons] at hp
    push_neg at hp
    rw [List.foldl_cons, ih _ _ hp.2, aget_aset_ne _ _ _ _ hp.1]

theorem prune_fold_none (cur : List (String × String)) (p : String)
    (hc : aget cur p = none) :
    ∀ (keys : List String) (acc : List (String × String)),
      (aget acc p = none ∨ p ∈ keys) →
      aget (keys.foldl
        (fun acc k => if (aget cur k).isSome then acc else adel acc k) acc) p
        = none := by
  intro keys
  induction keys with
  | nil =>
    intro acc h
    rcases h with h | h
    · exact h
    · simp at h
  | cons k ks ih =>
    intro acc h
    rw [List.foldl_cons]
    by_cases hk : k = p
    · subst hk
      rw [hc]
      simp only [Option.isSome_none, Bool.false_eq_true, if_false]
      exact ih _ (Or.inl (aget_adel_self acc k))
    · apply ih
      rcases h with h | h
      · left
        by_cases hs : (aget cur k).isSome
        · rw [if_pos hs]
          exact h
        · rw [if_neg hs, aget_adel_ne _ _ _ (fun hh => hk hh.symm)]
          exact h
      · rcases List.mem_cons.mp h with h | h
        · exact absurd h.symm hk
        · exact Or.inr h

/-- C5 (amended): the ledger saved at the end of a run contains entries only
    for paths encountered in the current scan.  In the frontmatter updater
    `main` rebuilds `updated_hashes` from the empty dictionary, and in the
    hash generator `update_hashes` explicitly deletes keys absent from the
    scan — both variants prune stale entries rather than preserving them. -/
theorem saved_ledger_only_scanned_paths :
    (∀ (hash : Str → String) (parse : Str → Option Dict) (dump : Dict → Str)
        (now : Datetime) (L : List (String × String))
        (files : List (String × Str)) (p : String),
        (aget (mainRun hash parse dump now L files).1 p).isSome = true →
        p ∈ files.map Prod.fst) ∧
    (∀ (hash : Str → String) (existing : List (String × String))
        (files : List (String × Str)) (p : String),
        p ∉ files.map Prod.fst →
        aget (update_hashes hash existing files) p = none) := by
  constructor
  · intro hash parse dump now L files p h
    rcases mainRunAux_key_sub hash parse dump now L files [] [] p h with h' | h'
    · simp [aget] at h'
    · exact h'
  · intro hash existing files p hp
    have hc : aget (files.foldl (fun acc e => aset acc e.1 (hash e.2)) []) p
        = none := by
      rw [aget_current_fold_not_mem hash files [] p hp]
      rfl
    simp only [update_hashes]
    apply prune_fold_none _ p hc
    by_cases hu : aget ((files.foldl (fun acc e => aset acc e.1 (hash e.2))
        []).foldl (fun acc e => aset acc e.1 e.2) existing) p = none
    · exact Or.inl hu
    · right
      apply aget_isSome_mem_keys
      rcases hx : aget ((files.foldl (fun acc e => aset acc e.1 (hash e.2))
          []).foldl (fun acc e => aset acc e.1 e.2) existing) p with _ | v
      · exact absurd hx hu
      · simp [hx]

/-- Witness for C5: a stale path "stale" absent from the scan is gone from
    the generated ledger. -/
theorem saved_ledger_only_scanned_paths_witness :
    ("stale" ∉ ([("a", strL "x")] : List (String × Str)).map Prod.fst) ∧
    aget (update_hashes (fun c => String.mk ('#' :: c)) [("stale", "h")]
      [("a", strL "x")]) "stale" = none :=
  ⟨by decide, saved_ledger_only_scanned_paths.2 (fun c => String.mk ('#' :: c))
    [("stale", "h")] [("a", strL "x")] "stale" (by decide)⟩

/-! ### C8: unchanged files are skipped entirely -/

theorem proc_modifiedFile_cases (hash : Str → String) (parse : Str → Option Dict)
    (dump : Dict → Str) (q : String) (c : Str) (prev : Option String)
    (now : Datetime) :
    (process_markdown_file hash parse dump q c prev now).modifiedFile = none ∨
    (process_markdown_file hash parse dump q c prev now).modifiedFile = some q := by
  rw [process_markdown_file]
  by_cases hp : prev = some (hash c)
  · simp [hp]
  · simp only [if_neg hp]
    by_cases hs : (update_frontmatter parse dump q c now).saved = true
    · simp [hs]
    · simp [hs]

theorem mainRunAux_unchanged (hash : Str → String) (parse : Str → Option Dict)
    (dump : Dict → Str) (now : Datetime) (L : List (String × String))
    (p : String) (c : Str)
    (hL : aget L p = some (hash c)) (hne : hash c ≠ "") :
    ∀ (files : List (String × Str)) (uh : List (String × String))
      (mf : List String),
      (∀ e ∈ files, e.1 = p → e.2 = c) →
      (aget uh p = some (hash c) ∨ ((p, c) ∈ files ∧ aget uh p = none)) →
      p ∉ mf →
      aget (mainRunAux hash parse dump now L files uh mf).1 p = some (hash c) ∧
      p ∉ (mainRunAux hash parse dump now L files uh mf).2 := by
  intro files
  induction files with
  | nil =>
    intro uh mf _ hinv hmf
    rw [mainRunAux]
    rcases hinv with h | ⟨hmem, _⟩
    · exact ⟨h, hmf⟩
    · exact absurd hmem (List.not_mem_nil _)
  | cons e rest ih =>
    intro uh mf hall hinv hmf
    obtain ⟨q, c'⟩ := e
    by_cases hq : q = p
    · have hc' : c' = c := hall (q, c') (List.mem_cons_self _ _) hq
      have hproc : process_markdown_file hash parse dump q c' (aget L q) now =
          ⟨some (hash c), none, false, c, false, false, false, false⟩ := by
        rw [hq, hc']
        simp [process_markdown_file, hL]
      simp only [mainRunAux, hproc]
      rw [if_neg hne]
      apply ih
      · intro e he hep
        exact hall e (List.mem_cons_of_mem _ he) hep
      · left
        rw [hq]
        exact aget_aset_self uh p (hash c)
      · exact hmf
    · have hpq : p ≠ q := fun hh => hq hh.symm
      have hall' : ∀ e ∈ rest, e.1 = p → e.2 = c := fun e he hep =>
        hall e (List.mem_cons_of_mem _ he) hep
      have hinv' : aget uh p = some (hash c) ∨
          ((p, c) ∈ rest ∧ aget uh p = none) := by
        rcases hinv with h | ⟨hm, hn⟩
        · exact Or.inl h
        · rcases List.mem_cons.mp hm with hm' | hm'
          · exact absurd (congrArg Prod.fst hm') hpq
          · exact Or.inr ⟨hm', hn⟩
      simp only [mainRunAux]
      rcases hnh : (process_markdown_file hash parse dump q c' (aget L q) now).newHash
        with _ | hv
      · rcases proc_modifiedFile_cases hash parse dump q c' (aget L q) now
          with hnf | hnf
        · simp only [hnh, hnf]
          exact ih uh mf hall' hinv' hmf
        · simp only [hnh, hnf]
          split
          · apply ih uh (mf ++ [q]) hall' hinv'
            simp [List.mem_append, hmf, hpq]
          · exact ih uh mf hall' hinv' hmf
      · have hinvA : aget (aset uh q hv) p = some (hash c) ∨
            ((p, c) ∈ rest ∧ aget (aset uh q hv) p = none) := by
          rw [aget_aset_ne _ _ _ _ hpq]
          exact hinv'
        rcases proc_modifiedFile_cases hash parse dump q c' (aget L q) now
          with hnf | hnf
        · simp only [hnh, hnf]
          by_cases hv0 : hv = ""
          · rw [if_pos hv0]
            exact ih uh mf hall' hinv' hmf
          · rw [if_neg hv0]
            exact ih _ mf hall' hinvA hmf
        · simp only [hnh, hnf]
          by_cases hv0 : hv = ""
          · rw [if_pos hv0]
            split
            · apply ih uh (mf ++ [q]) hall' hinv'
              simp [List.mem_append, hmf, hpq]
            · exact ih uh mf hall' hinv' hmf
          · rw [if_neg hv0]
            split
            · apply ih _ (mf ++ [q]) hall' hinvA
              simp [List.mem_append, hmf, hpq]
            · exact ih _ mf hall' hinvA hmf

/-- C8: if the loaded ledger fingerprint of a path equals the fingerprint of
    its current content, processing performs no split, parse, normalize or
    write, returns the same fingerprint (which `main` re-records unchanged),
    and the path is absent from the final modified-files report. -/
theorem unchanged_file_skipped (hash : Str → String) (parse : Str → Option Dict)
    (dump : Dict → Str) (now : Datetime) (L : List (String × String))
    (files : List (String × Str)) (p : String) (c : Str)
    (hmem : (p, c) ∈ files)
    (huniq : ∀ e ∈ files, e.1 = p → e.2 = c)
    (hL : aget L p = some (hash c))
    (hne : hash c ≠ "") :
    process_markdown_file hash parse dump p c (aget L p) now =
      ⟨some (hash c), none, false, c, false, false, false, false⟩ ∧
    aget (mainRun hash parse dump now L files).1 p = some (hash c) ∧
    p ∉ (mainRun hash parse dump now L files).2 := by
  have hproc : process_markdown_file hash parse dump p c (aget L p) now =
      ⟨some (hash c), none, false, c, false, false, false, false⟩ := by
    simp [process_markdown_file, hL]
  have haux := mainRunAux_unchanged hash parse dump now L p c hL hne files [] []
    huniq (Or.inr ⟨hmem, rfl⟩) (List.not_mem_nil _)
  exact ⟨hproc, haux.1, haux.2⟩

/-- Witness for C8: one scanned file whose ledger entry matches its content
    fingerprint. -/
theorem unchanged_file_skipped_witness :
    (("a.md", strL "x") ∈ [("a.md", strL "x")]) ∧
    aget ([("a.md", "#x")] : List (String × String)) "a.md" =
      some ((fun c => String.mk ('#' :: c)) (strL "x")) ∧
    (process_markdown_file (fun c => String.mk ('#' :: c)) (fun _ => some [])
        (fun _ => []) "a.md" (strL "x") (aget [("a.md", "#x")] "a.md") dt0 =
      ⟨some ((fun c => String.mk ('#' :: c)) (strL "x")), none, false, strL "x",
        false, false, false, false⟩ ∧
      aget (mainRun (fun c => String.mk ('#' :: c)) (fun _ => some [])
          (fun _ => []) dt0 [("a.md", "#x")] [("a.md", strL "x")]).1 "a.md" =
        some ((fun c => String.mk ('#' :: c)) (strL "x")) ∧
      "a.md" ∉ (mainRun (fun c => String.mk ('#' :: c)) (fun _ => some [])
          (fun _ => []) dt0 [("a.md", "#x")] [("a.md", strL "x")]).2) :=
  ⟨by decide, by decide,
    unchanged_file_skipped (fun c => String.mk ('#' :: c)) (fun _ => some [])
      (fun _ => []) dt0 [("a.md", "#x")] [("a.md", strL "x")] "a.md" (strL "x")
      (by decide) (by decide) (by decide) (by decide)⟩

/-! ### C9: ledger-loading resilience -/

theorem load_hashes_fold (abspath : Str → Str) :
    ∀ (lines : List Str) (d : List (Str × Str)) (w : List Str),
      lines.foldl
        (fun acc line =>
          match parseLedgerLine line with
          | some (p, h) => (aset acc.1 (abspath p) h, acc.2)
          | none => (acc.1, acc.2 ++ [pyStrip line])) (d, w) =
      ((lines.filterMap parseLedgerLine).foldl
          (fun acc e => aset acc (abspath e.1) e.2) d,
        w ++ (lines.filter (fun l => (parseLedgerLine l).isNone)).map pyStrip) := by
  intro lines
  induction lines with
  | nil =>
    intro d w
    simp
  | cons l ls ih =>
    intro d w
    rw [List.foldl_cons]
    rcases hl : parseLedgerLine l with _ | ⟨pp, hh⟩
    · simp only [hl]
      rw [ih]
      simp [List.filterMap_cons, List.filter_cons, hl, List.append_assoc]
    · simp only [hl]
      rw [ih]
      simp [List.filterMap_cons, List.filter_cons, hl]

/-- C9 (amended): the *frontmatter updater* loader `load_hashes` never
    fails: a missing store yields the empty ledger with no warnings, and on
    any list of lines it returns exactly the ledger built from the
    well-formed (two tab-separated fields) lines together with one warned
    stripped copy of each malformed line.  (The standalone hash generator
    loader `load_existing_hashes` lacks this resilience: see the
    counterexample, where it raises.) -/
theorem load_hashes_never_fails (abspath : Str → Str) :
    load_hashes abspath none = ([], []) ∧
    ∀ lines, load_hashes abspath (some lines) =
      (buildLedger abspath (lines.filterMap parseLedgerLine),
        (lines.filter (fun l => (parseLedgerLine l).isNone)).map pyStrip) := by
  refine ⟨rfl, ?_⟩
  intro lines
  rw [load_hashes, buildLedger, load_hashes_fold abspath lines [] []]
  simp

/-- C9 counterexample: on a store holding one well-formed line and one line
    with three tab-separated fields, the generator loader
    `load_existing_hashes` raises (the tuple unpacking fails), while
    `load_hashes` keeps the well-formed entry and warns once. -/
theorem load_existing_hashes_raises :
    load_existing_hashes (some [strL "a\tb", strL "x\ty\tz"]) = .error () ∧
    (load_hashes (fun s => s) (some [strL "a\tb", strL "x\ty\tz"])).1 =
      [(strL "a", strL "b")] ∧
    (load_hashes (fun s => s) (some [strL "a\tb", strL "x\ty\tz"])).2 =
      [strL "x\ty\tz"] :=
  ⟨rfl, rfl, rfl⟩
